import Mathlib

/-!
# Rigid-body transform algebra (`include/transform.hpp`)

Shallow embedding of the `tf` namespace: `Vector3`, `Quaternion`, `Transform`
and their operators.  The scalar type `double` is replaced by an arbitrary
commutative ring `R`, so that every definition is executable over `ℤ` or `ℚ`
and the laws can be stated over exact real arithmetic (`R = ℝ`).

The overloaded C++ operators are given the names the specification uses:

* `operator+(Vector3, Vector3)`        ↦ `add`
* `operator-(Vector3, Vector3)`        ↦ `sub`
* `operator*(Vector3, Vector3)`        ↦ `dot`
* `operator-(Vector3)`                 ↦ `negate`
* `operator~(Quaternion)`              ↦ `conjugate`
* `operator*(Quaternion, Quaternion)`  ↦ `multiply`
* `operator*(Quaternion, Vector3)`     ↦ `rotate`
* `operator~(Transform)`               ↦ `invert`
* `operator*(Transform, Transform)`    ↦ `compose`
* `operator*(Transform, Vector3)`      ↦ `apply`
-/

namespace tf

/-! ## Vector3 -/

/-- Vector3 data structure: members `x`, `y`, `z`. -/
@[ext]
structure Vector3 (R : Type) where
  x : R
  y : R
  z : R
  deriving DecidableEq

/-- The defaulted constructor `Vector3()`: every member is `0`. -/
def Vector3.default {R : Type} [CommRing R] : Vector3 R :=
  { x := 0, y := 0, z := 0 }

/-- Adds two vectors: `{a.x + b.x, a.y + b.y, a.z + b.z}`. -/
def add {R : Type} [CommRing R] (a b : Vector3 R) : Vector3 R :=
  { x := a.x + b.x, y := a.y + b.y, z := a.z + b.z }

/-- Subtracts two vectors: `{a.x - b.x, a.y - b.y, a.z - b.z}`. -/
def sub {R : Type} [CommRing R] (a b : Vector3 R) : Vector3 R :=
  { x := a.x - b.x, y := a.y - b.y, z := a.z - b.z }

/-- Dot product: `a.x * b.x + a.y * b.y + a.z * b.z`. -/
def dot {R : Type} [CommRing R] (a b : Vector3 R) : R :=
  a.x * b.x + a.y * b.y + a.z * b.z

/-- Vector negation: `{-v.x, -v.y, -v.z}`. -/
def negate {R : Type} [CommRing R] (v : Vector3 R) : Vector3 R :=
  { x := -v.x, y := -v.y, z := -v.z }

/-! ## Quaternion -/

/-- Quaternion data structure: scalar member `w` and vector member `v`. -/
@[ext]
structure Quaternion (R : Type) where
  w : R
  v : Vector3 R
  deriving DecidableEq

/-- The defaulted constructor `Quaternion()`: `w = 1`, `v` the zero vector. -/
def Quaternion.default {R : Type} [CommRing R] : Quaternion R :=
  { w := 1, v := Vector3.default }

/-- The constructor `Quaternion(double w, double x, double y, double z)`. -/
def Quaternion.ofComponents {R : Type} (w x y z : R) : Quaternion R :=
  { w := w, v := { x := x, y := y, z := z } }

/-- The constructor `Quaternion(const Vector3& axis, double angle)`.  The library
functions `std::cos` and `std::sin` are the parameters `cos` and `sin`. -/
def Quaternion.ofAxisAngle {R : Type} [Field R] (cos sin : R → R)
    (axis : Vector3 R) (angle : R) : Quaternion R :=
  let c := cos (angle / 2)
  let s := sin (angle / 2)
  { w := c, v := { x := s * axis.x, y := s * axis.y, z := s * axis.z } }

/-- The method `Quaternion::norm`: `sqrt(w * w + v * v)`.  The library function
`std::sqrt` is the parameter `sqrt`. -/
def Quaternion.norm {R : Type} [CommRing R] (sqrt : R → R) (q : Quaternion R) : R :=
  sqrt (q.w * q.w + dot q.v q.v)

/-- Quaternion conjugate: `{q.w, -q.v}`. -/
def conjugate {R : Type} [CommRing R] (q : Quaternion R) : Quaternion R :=
  { w := q.w, v := negate q.v }

/-- Combine two rotations (Hamilton product), term by term as in the source. -/
def multiply {R : Type} [CommRing R] (a b : Quaternion R) : Quaternion R :=
  { w := -a.v.x * b.v.x - a.v.y * b.v.y - a.v.z * b.v.z + a.w * b.w,
    v :=
      { x := a.v.x * b.w + a.v.y * b.v.z - a.v.z * b.v.y + a.w * b.v.x,
        y := -a.v.x * b.v.z + a.v.y * b.w + a.v.z * b.v.x + a.w * b.v.y,
        z := a.v.x * b.v.y - a.v.y * b.v.x + a.v.z * b.w + a.w * b.v.z } }

/-- Rotates a vector: `p = {0, v}; p = q * p * ~q; return p.v`. -/
def rotate {R : Type} [CommRing R] (q : Quaternion R) (v : Vector3 R) : Vector3 R :=
  let p : Quaternion R := { w := 0, v := v }
  let p := multiply (multiply q p) (conjugate q)
  p.v

/-! ## Transform -/

/-- Transforms contain a position and a rotation. -/
@[ext]
structure Transform (R : Type) where
  position : Vector3 R
  rotation : Quaternion R
  deriving DecidableEq

/-- The defaulted constructor `Transform()`. -/
def Transform.default {R : Type} [CommRing R] : Transform R :=
  { position := Vector3.default, rotation := Quaternion.default }

/-- Inverse transformation: `{~tf.rotation * -tf.position, ~tf.rotation}`. -/
def invert {R : Type} [CommRing R] (t : Transform R) : Transform R :=
  { position := rotate (conjugate t.rotation) (negate t.position),
    rotation := conjugate t.rotation }

/-- Combine two transformations:
`{a.position + a.rotation * b.position, a.rotation * b.rotation}`. -/
def compose {R : Type} [CommRing R] (a b : Transform R) : Transform R :=
  { position := add a.position (rotate a.rotation b.position),
    rotation := multiply a.rotation b.rotation }

/-- Transform a vector: `tf.position + tf.rotation * v`. -/
def apply {R : Type} [CommRing R] (t : Transform R) (v : Vector3 R) : Vector3 R :=
  add t.position (rotate t.rotation v)

/-! ## Reference definitions used to state the laws -/

/-- Cross product of two vectors, as the specification writes it. -/
def cross {R : Type} [CommRing R] (p r : Vector3 R) : Vector3 R :=
  { x := p.y * r.z - p.z * r.y, y := p.z * r.x - p.x * r.z, z := p.x * r.y - p.y * r.x }

/-- Scaling of a vector by a scalar. -/
def scale {R : Type} [CommRing R] (k : R) (a : Vector3 R) : Vector3 R :=
  { x := k * a.x, y := k * a.y, z := k * a.z }

/-- The squared norm `w^2 + v·v`, the radicand of `Quaternion::norm`. -/
def normSq {R : Type} [CommRing R] (q : Quaternion R) : R :=
  q.w ^ 2 + dot q.v q.v

/-- The Hamilton product as the specification words it: scalar part
`a.w*b.w - dot(a.v, b.v)`, vector part `a.w*b.v + b.w*a.v + cross(a.v, b.v)`. -/
def hamiltonReference {R : Type} [CommRing R] (a b : Quaternion R) : Quaternion R :=
  { w := a.w * b.w - dot a.v b.v,
    v := add (add (scale a.w b.v) (scale b.w a.v)) (cross a.v b.v) }

/-! ## Concrete evaluations of the embedding -/

example : add (⟨1, 2, 3⟩ : Vector3 ℤ) ⟨4, 5, 6⟩ = ⟨5, 7, 9⟩ := by decide
example : sub (⟨1, 2, 3⟩ : Vector3 ℤ) ⟨2, 2, 1⟩ = ⟨-1, 0, 2⟩ := by decide
example : dot (⟨1, 2, 3⟩ : Vector3 ℤ) ⟨2, -2, 1⟩ = 1 := by decide
example : negate (⟨1, 2, -3⟩ : Vector3 ℤ) = ⟨-1, -2, 3⟩ := by decide
example : conjugate (⟨1, ⟨2, 3, 4⟩⟩ : Quaternion ℤ) = ⟨1, ⟨-2, -3, -4⟩⟩ := by decide
example : rotate (⟨0, ⟨0, 0, 1⟩⟩ : Quaternion ℤ) ⟨1, 2, 3⟩ = ⟨-1, -2, 3⟩ := by decide

/-! ## Helper lemmas (polynomial identities of the operators) -/

section Helpers

variable {R : Type} [CommRing R]

/-- The sandwich `q * (0, v) * ~q` has scalar part `0`: it is a pure quaternion. -/
lemma sandwich_w (q : Quaternion R) (v : Vector3 R) :
    (multiply (multiply q { w := 0, v := v }) (conjugate q)).w = 0 := by
  simp only [multiply, conjugate, negate]
  ring

/-- The sandwich `q * (0, v) * ~q` is the pure quaternion `(0, rotate q v)`. -/
lemma sandwich_eq (q : Quaternion R) (v : Vector3 R) :
    multiply (multiply q { w := 0, v := v }) (conjugate q) = { w := 0, v := rotate q v } := by
  ext
  · exact sandwich_w q v
  · rfl
  · rfl
  · rfl

/-- Conjugation reverses the Hamilton product. -/
lemma conjugate_multiply (a b : Quaternion R) :
    conjugate (multiply a b) = multiply (conjugate b) (conjugate a) := by
  ext <;> simp only [multiply, conjugate, negate] <;> ring

/-- The Hamilton product is associative. -/
lemma multiply_assoc_aux (a b c : Quaternion R) :
    multiply (multiply a b) c = multiply a (multiply b c) := by
  ext <;> simp only [multiply] <;> ring

/-- Rotation by a product is the composite of the rotations. -/
lemma rotate_multiply_aux (q1 q2 : Quaternion R) (v : Vector3 R) :
    rotate (multiply q1 q2) v = rotate q1 (rotate q2 v) := by
  ext <;> simp only [rotate, multiply, conjugate, negate] <;> ring

/-- Rotation is additive in the vector. -/
lemma rotate_add_aux (q : Quaternion R) (u v : Vector3 R) :
    rotate q (add u v) = add (rotate q u) (rotate q v) := by
  ext <;> simp only [rotate, multiply, conjugate, negate, add] <;> ring

/-- Rotation commutes with negation of the vector. -/
lemma rotate_negate_aux (q : Quaternion R) (v : Vector3 R) :
    rotate q (negate v) = negate (rotate q v) := by
  ext <;> simp only [rotate, multiply, conjugate, negate] <;> ring

/-- Vector addition is associative. -/
lemma add_assoc_aux (a b c : Vector3 R) : add (add a b) c = add a (add b c) := by
  ext <;> simp only [add] <;> ring

/-- A vector plus its negation is the zero vector. -/
lemma add_negate_aux (a : Vector3 R) : add a (negate a) = { x := 0, y := 0, z := 0 } := by
  ext <;> simp only [add, negate] <;> ring

/-- The negation of a vector plus the vector is the zero vector. -/
lemma negate_add_aux (a : Vector3 R) : add (negate a) a = { x := 0, y := 0, z := 0 } := by
  ext <;> simp only [add, negate] <;> ring

/-- The product `q * ~q` is the real quaternion `(normSq q, 0)`. -/
lemma multiply_conjugate_aux (q : Quaternion R) :
    multiply q (conjugate q) = { w := normSq q, v := { x := 0, y := 0, z := 0 } } := by
  ext <;> simp only [multiply, conjugate, negate, normSq, dot] <;> ring

/-- The product `~q * q` is the real quaternion `(normSq q, 0)`. -/
lemma conjugate_multiply_self_aux (q : Quaternion R) :
    multiply (conjugate q) q = { w := normSq q, v := { x := 0, y := 0, z := 0 } } := by
  ext <;> simp only [multiply, conjugate, negate, normSq, dot] <;> ring

/-- Rotating by `q` and then by `~q` scales by the square of `normSq q`. -/
lemma rotate_conjugate_rotate_aux (q : Quaternion R) (v : Vector3 R) :
    rotate (conjugate q) (rotate q v) = scale (normSq q ^ 2) v := by
  ext <;> simp only [rotate, multiply, conjugate, negate, scale, normSq, dot] <;> ring

/-- Rotating by `~q` and then by `q` scales by the square of `normSq q`. -/
lemma rotate_rotate_conjugate_aux (q : Quaternion R) (v : Vector3 R) :
    rotate q (rotate (conjugate q) v) = scale (normSq q ^ 2) v := by
  ext <;> simp only [rotate, multiply, conjugate, negate, scale, normSq, dot] <;> ring

/-- Rotation scales the squared length by the square of `normSq q`. -/
lemma dot_rotate_aux (q : Quaternion R) (v : Vector3 R) :
    dot (rotate q v) (rotate q v) = normSq q ^ 2 * dot v v := by
  simp only [rotate, multiply, conjugate, negate, normSq, dot]
  ring

/-- Scaling by one changes nothing. -/
lemma scale_one_aux (v : Vector3 R) : scale 1 v = v := by
  ext <;> simp only [scale] <;> ring

/-- Half-angle form of the cosine: `cos θ = cos(θ/2)^2 - sin(θ/2)^2`. -/
lemma cos_half_aux (θ : ℝ) :
    Real.cos θ = Real.cos (θ / 2) ^ 2 - Real.sin (θ / 2) ^ 2 := by
  have h2 := Real.cos_two_mul (θ / 2)
  have h1 := Real.sin_sq_add_cos_sq (θ / 2)
  rw [show 2 * (θ / 2) = θ by ring] at h2
  linear_combination h2 + h1

/-- Half-angle form of the sine: `sin θ = 2 sin(θ/2) cos(θ/2)`. -/
lemma sin_half_aux (θ : ℝ) :
    Real.sin θ = 2 * Real.sin (θ / 2) * Real.cos (θ / 2) := by
  have h2 := Real.sin_two_mul (θ / 2)
  rw [show 2 * (θ / 2) = θ by ring] at h2
  exact h2

/-- Rotation by the axis-angle quaternion about `(0,0,1)` turns the `x`-`y` plane
counter-clockwise by the full angle. -/
lemma rotate_axisZ_aux (θ x y z : ℝ) :
    rotate (Quaternion.ofAxisAngle Real.cos Real.sin ⟨0, 0, 1⟩ θ) ⟨x, y, z⟩
      = ⟨x * Real.cos θ - y * Real.sin θ, x * Real.sin θ + y * Real.cos θ, z⟩ := by
  have h1 := Real.sin_sq_add_cos_sq (θ / 2)
  rw [cos_half_aux θ, sin_half_aux θ]
  ext
  · simp only [rotate, multiply, conjugate, negate, Quaternion.ofAxisAngle]
    ring
  · simp only [rotate, multiply, conjugate, negate, Quaternion.ofAxisAngle]
    ring
  · simp only [rotate, multiply, conjugate, negate, Quaternion.ofAxisAngle]
    linear_combination z * h1

/-- Rotation by the conjugate of the axis-angle quaternion about `(0,0,1)` turns the
`x`-`y` plane clockwise by the full angle. -/
lemma rotate_conjugate_axisZ_aux (θ x y z : ℝ) :
    rotate (conjugate (Quaternion.ofAxisAngle Real.cos Real.sin ⟨0, 0, 1⟩ θ)) ⟨x, y, z⟩
      = ⟨x * Real.cos θ + y * Real.sin θ, y * Real.cos θ - x * Real.sin θ, z⟩ := by
  have h1 := Real.sin_sq_add_cos_sq (θ / 2)
  rw [cos_half_aux θ, sin_half_aux θ]
  ext
  · simp only [rotate, multiply, conjugate, negate, Quaternion.ofAxisAngle]
    ring
  · simp only [rotate, multiply, conjugate, negate, Quaternion.ofAxisAngle]
    ring
  · simp only [rotate, multiply, conjugate, negate, Quaternion.ofAxisAngle]
    linear_combination z * h1

/-- The squared norm is multiplicative under the Hamilton product. -/
lemma normSq_multiply_aux (a b : Quaternion R) :
    normSq (multiply a b) = normSq a * normSq b := by
  simp only [normSq, multiply, dot]
  ring

/-- The squared norm is invariant under conjugation. -/
lemma normSq_conjugate_aux (a : Quaternion R) : normSq (conjugate a) = normSq a := by
  simp only [normSq, conjugate, negate, dot]
  ring

/-- The squared norm of the axis-angle quaternion. -/
lemma normSq_ofAxisAngle_aux (a : Vector3 ℝ) (θ : ℝ) :
    normSq (Quaternion.ofAxisAngle Real.cos Real.sin a θ)
      = Real.cos (θ / 2) ^ 2 + Real.sin (θ / 2) ^ 2 * dot a a := by
  simp only [normSq, Quaternion.ofAxisAngle, dot]
  ring

/-- The dot product of a real vector with itself is non-negative. -/
lemma dot_self_nonneg_aux (v : Vector3 ℝ) : 0 ≤ dot v v := by
  simp only [dot]
  nlinarith [mul_self_nonneg v.x, mul_self_nonneg v.y, mul_self_nonneg v.z]

/-- A real vector whose dot product with itself vanishes is the zero vector. -/
lemma eq_zero_of_dot_self_aux (v : Vector3 ℝ) (h : dot v v = 0) :
    v = { x := 0, y := 0, z := 0 } := by
  simp only [dot] at h
  have hx : v.x * v.x = 0 := by
    nlinarith [mul_self_nonneg v.x, mul_self_nonneg v.y, mul_self_nonneg v.z]
  have hy : v.y * v.y = 0 := by
    nlinarith [mul_self_nonneg v.x, mul_self_nonneg v.y, mul_self_nonneg v.z]
  have hz : v.z * v.z = 0 := by
    nlinarith [mul_self_nonneg v.x, mul_self_nonneg v.y, mul_self_nonneg v.z]
  ext
  · exact mul_self_eq_zero.mp hx
  · exact mul_self_eq_zero.mp hy
  · exact mul_self_eq_zero.mp hz

/-- The squared norm of a real quaternion is non-negative. -/
lemma normSq_nonneg_aux (q : Quaternion ℝ) : 0 ≤ normSq q := by
  have h := dot_self_nonneg_aux q.v
  simp only [normSq]
  nlinarith [sq_nonneg q.w]

end Helpers

/-! ## Laws of the transform algebra over exact real arithmetic -/

/-- C1: for every Transform `t` whose rotation is unit-norm
(`t.rotation.w^2 + dot(t.rotation.v, t.rotation.v) = 1`), both
`compose(t, invert(t))` and `compose(invert(t), t)` equal the identity transform:
position `(0,0,0)` and rotation `(w = 1, v = (0,0,0))`. -/
theorem compose_invert_identity (t : Transform ℝ)
    (h : t.rotation.w ^ 2 + dot t.rotation.v t.rotation.v = 1) :
    compose t (invert t)
        = { position := { x := 0, y := 0, z := 0 },
            rotation := { w := 1, v := { x := 0, y := 0, z := 0 } } }
      ∧ compose (invert t) t
        = { position := { x := 0, y := 0, z := 0 },
            rotation := { w := 1, v := { x := 0, y := 0, z := 0 } } } := by
  have hn : normSq t.rotation = 1 := h
  constructor
  · simp only [compose, invert]
    rw [rotate_rotate_conjugate_aux, multiply_conjugate_aux, hn, one_pow, scale_one_aux,
      add_negate_aux]
  · simp only [compose, invert]
    rw [rotate_negate_aux, negate_add_aux, conjugate_multiply_self_aux, hn]

/-- C1 at the unit quaternion `(3/5, (0, 4/5, 0))` with position `(1, 2, 3)`. -/
theorem compose_invert_identity_witness :
    ((3 / 5 : ℝ) ^ 2 + dot (⟨0, 4 / 5, 0⟩ : Vector3 ℝ) ⟨0, 4 / 5, 0⟩ = 1)
      ∧ compose (⟨⟨1, 2, 3⟩, ⟨3 / 5, ⟨0, 4 / 5, 0⟩⟩⟩ : Transform ℝ)
          (invert ⟨⟨1, 2, 3⟩, ⟨3 / 5, ⟨0, 4 / 5, 0⟩⟩⟩)
        = { position := { x := 0, y := 0, z := 0 },
            rotation := { w := 1, v := { x := 0, y := 0, z := 0 } } }
      ∧ compose (invert (⟨⟨1, 2, 3⟩, ⟨3 / 5, ⟨0, 4 / 5, 0⟩⟩⟩ : Transform ℝ))
          ⟨⟨1, 2, 3⟩, ⟨3 / 5, ⟨0, 4 / 5, 0⟩⟩⟩
        = { position := { x := 0, y := 0, z := 0 },
            rotation := { w := 1, v := { x := 0, y := 0, z := 0 } } } :=
  ⟨by norm_num [dot],
    compose_invert_identity ⟨⟨1, 2, 3⟩, ⟨3 / 5, ⟨0, 4 / 5, 0⟩⟩⟩ (by norm_num [dot])⟩

/-- C2: for all Transforms `t1`, `t2` and every Vector3 `v`, applying the composed
transform equals applying them in sequence:
`apply(compose(t1, t2), v) = apply(t1, apply(t2, v))`. -/
theorem apply_compose (t1 t2 : Transform ℝ) (v : Vector3 ℝ) :
    apply (compose t1 t2) v = apply t1 (apply t2 v) := by
  simp only [apply, compose]
  rw [rotate_multiply_aux, rotate_add_aux, add_assoc_aux]

/-- C3: for all Quaternions `q1`, `q2` and every Vector3 `v`, rotating by the Hamilton
product equals rotating by `q2` first and then by `q1`:
`rotate(multiply(q1, q2), v) = rotate(q1, rotate(q2, v))`. -/
theorem rotate_multiply (q1 q2 : Quaternion ℝ) (v : Vector3 ℝ) :
    rotate (multiply q1 q2) v = rotate q1 (rotate q2 v) :=
  rotate_multiply_aux q1 q2 v

/-- C4: the Hamilton product is associative, component by component:
`multiply(multiply(q1, q2), q3) = multiply(q1, multiply(q2, q3))`. -/
theorem multiply_assoc (q1 q2 q3 : Quaternion ℝ) :
    multiply (multiply q1 q2) q3 = multiply q1 (multiply q2 q3)
      ∧ (multiply (multiply q1 q2) q3).w = (multiply q1 (multiply q2 q3)).w
      ∧ (multiply (multiply q1 q2) q3).v.x = (multiply q1 (multiply q2 q3)).v.x
      ∧ (multiply (multiply q1 q2) q3).v.y = (multiply q1 (multiply q2 q3)).v.y
      ∧ (multiply (multiply q1 q2) q3).v.z = (multiply q1 (multiply q2 q3)).v.z := by
  have h := multiply_assoc_aux q1 q2 q3
  exact ⟨h, by rw [h], by rw [h], by rw [h], by rw [h]⟩

/-- C5: Transform composition is associative, in both the position and the rotation
field: `compose(compose(a, b), c) = compose(a, compose(b, c))`. -/
theorem compose_assoc (a b c : Transform ℝ) :
    compose (compose a b) c = compose a (compose b c)
      ∧ (compose (compose a b) c).position = (compose a (compose b c)).position
      ∧ (compose (compose a b) c).rotation = (compose a (compose b c)).rotation := by
  have h : compose (compose a b) c = compose a (compose b c) := by
    simp only [compose]
    rw [rotate_multiply_aux, rotate_add_aux, add_assoc_aux, multiply_assoc_aux]
  exact ⟨h, by rw [h], by rw [h]⟩

/-- C6: for every Transform `t` with unit-norm rotation and every Vector3 `v`, the
inverse transform maps a parent-frame point back to the local frame:
`apply(invert(t), apply(t, v)) = v` and `apply(t, apply(invert(t), v)) = v`.
The two test scenarios hold exactly over the reals: with
`t = {pos (1,1,0), rot axis (0,0,1) angle π/4}`, `invert(t)` sends `(2,2,0)` to
`(√2, 0, 0)`; with `t = {pos 0, rot axis (0,0,1) angle π/6}`, `invert(t)` sends
`(cos(π/6), sin(π/6), 0)` to `(1,0,0)`. -/
theorem apply_invert_roundtrip :
    (∀ (t : Transform ℝ) (v : Vector3 ℝ),
        t.rotation.w ^ 2 + dot t.rotation.v t.rotation.v = 1 →
        apply (invert t) (apply t v) = v ∧ apply t (apply (invert t) v) = v)
      ∧ apply (invert ⟨⟨1, 1, 0⟩,
            Quaternion.ofAxisAngle Real.cos Real.sin ⟨0, 0, 1⟩ (Real.pi / 4)⟩) ⟨2, 2, 0⟩
          = ⟨Real.sqrt 2, 0, 0⟩
      ∧ apply (invert ⟨⟨0, 0, 0⟩,
            Quaternion.ofAxisAngle Real.cos Real.sin ⟨0, 0, 1⟩ (Real.pi / 6)⟩)
            ⟨Real.cos (Real.pi / 6), Real.sin (Real.pi / 6), 0⟩
          = ⟨1, 0, 0⟩ := by
  refine ⟨?_, ?_, ?_⟩
  · intro t v h
    have hn : normSq t.rotation = 1 := h
    constructor
    · simp only [apply, invert]
      rw [rotate_add_aux, rotate_negate_aux, rotate_conjugate_rotate_aux, hn, one_pow,
        scale_one_aux]
      ext <;> simp only [add, negate] <;> ring
    · simp only [apply, invert]
      rw [rotate_add_aux, rotate_rotate_conjugate_aux, rotate_rotate_conjugate_aux, hn,
        one_pow, scale_one_aux, scale_one_aux]
      ext <;> simp only [add, negate] <;> ring
  · simp only [apply, invert, negate]
    rw [rotate_conjugate_axisZ_aux, rotate_conjugate_axisZ_aux, Real.cos_pi_div_four,
      Real.sin_pi_div_four]
    ext <;> simp only [add] <;> ring
  · have h1 := Real.cos_sq_add_sin_sq (Real.pi / 6)
    simp only [apply, invert, negate]
    rw [rotate_conjugate_axisZ_aux, rotate_conjugate_axisZ_aux]
    ext
    · simp only [add]
      linear_combination h1
    · simp only [add]
      ring
    · simp only [add]
      ring

/-- C6 at the unit quaternion `(3/5, (0, 4/5, 0))`, position `(1, 2, 3)` and the
point `(4, 5, 6)`. -/
theorem apply_invert_roundtrip_witness :
    ((3 / 5 : ℝ) ^ 2 + dot (⟨0, 4 / 5, 0⟩ : Vector3 ℝ) ⟨0, 4 / 5, 0⟩ = 1)
      ∧ apply (invert (⟨⟨1, 2, 3⟩, ⟨3 / 5, ⟨0, 4 / 5, 0⟩⟩⟩ : Transform ℝ))
          (apply ⟨⟨1, 2, 3⟩, ⟨3 / 5, ⟨0, 4 / 5, 0⟩⟩⟩ ⟨4, 5, 6⟩) = ⟨4, 5, 6⟩
      ∧ apply (⟨⟨1, 2, 3⟩, ⟨3 / 5, ⟨0, 4 / 5, 0⟩⟩⟩ : Transform ℝ)
          (apply (invert ⟨⟨1, 2, 3⟩, ⟨3 / 5, ⟨0, 4 / 5, 0⟩⟩⟩) ⟨4, 5, 6⟩) = ⟨4, 5, 6⟩ :=
  ⟨by norm_num [dot],
    apply_invert_roundtrip.1 ⟨⟨1, 2, 3⟩, ⟨3 / 5, ⟨0, 4 / 5, 0⟩⟩⟩ ⟨4, 5, 6⟩ (by norm_num [dot])⟩

/-- C7: rotation by a unit-norm quaternion preserves length: for every Quaternion `q`
with `q.w^2 + dot(q.v, q.v) = 1` and every Vector3 `v`,
`dot(rotate(q, v), rotate(q, v)) = dot(v, v)`. -/
theorem rotate_preserves_length (q : Quaternion ℝ) (v : Vector3 ℝ)
    (h : q.w ^ 2 + dot q.v q.v = 1) :
    dot (rotate q v) (rotate q v) = dot v v := by
  have hn : normSq q = 1 := h
  rw [dot_rotate_aux, hn, one_pow, one_mul]

/-- C7 at the unit quaternion `(3/5, (0, 4/5, 0))` and the vector `(1, 2, 3)`. -/
theorem rotate_preserves_length_witness :
    ((3 / 5 : ℝ) ^ 2 + dot (⟨0, 4 / 5, 0⟩ : Vector3 ℝ) ⟨0, 4 / 5, 0⟩ = 1)
      ∧ dot (rotate (⟨3 / 5, ⟨0, 4 / 5, 0⟩⟩ : Quaternion ℝ) ⟨1, 2, 3⟩)
          (rotate ⟨3 / 5, ⟨0, 4 / 5, 0⟩⟩ ⟨1, 2, 3⟩)
        = dot (⟨1, 2, 3⟩ : Vector3 ℝ) ⟨1, 2, 3⟩ :=
  ⟨by norm_num [dot],
    rotate_preserves_length ⟨3 / 5, ⟨0, 4 / 5, 0⟩⟩ ⟨1, 2, 3⟩ (by norm_num [dot])⟩

/-- C8: the conjugate is the multiplicative inverse exactly for unit quaternions: for
every Quaternion `q`, `multiply(q, conjugate(q))` equals the identity quaternion
`(w = 1, v = (0,0,0))` if and only if `q.w^2 + dot(q.v, q.v) = 1`, the same holds for
`multiply(conjugate(q), q)`, and the condition is equivalent to `norm(q) = 1`. -/
theorem multiply_conjugate_identity_iff (q : Quaternion ℝ) :
    (multiply q (conjugate q) = { w := 1, v := { x := 0, y := 0, z := 0 } }
        ↔ q.w ^ 2 + dot q.v q.v = 1)
      ∧ (multiply (conjugate q) q = { w := 1, v := { x := 0, y := 0, z := 0 } }
        ↔ q.w ^ 2 + dot q.v q.v = 1)
      ∧ (q.w ^ 2 + dot q.v q.v = 1 ↔ Quaternion.norm Real.sqrt q = 1) := by
  refine ⟨?_, ?_, ?_⟩
  · rw [multiply_conjugate_aux]
    constructor
    · intro h
      exact congrArg Quaternion.w h
    · intro h
      rw [show normSq q = 1 from h]
  · rw [conjugate_multiply_self_aux]
    constructor
    · intro h
      exact congrArg Quaternion.w h
    · intro h
      rw [show normSq q = 1 from h]
  · simp only [Quaternion.norm]
    rw [Real.sqrt_eq_one, sq]

/-- C9: the coded product `multiply(a, b)` equals the reference Hamilton product: its
scalar part is `a.w*b.w - dot(a.v, b.v)` and its vector part is
`a.w*b.v + b.w*a.v + cross(a.v, b.v)`, where
`cross(p, r) = (p.y*r.z - p.z*r.y, p.z*r.x - p.x*r.z, p.x*r.y - p.y*r.x)`. -/
theorem multiply_eq_hamiltonReference (a b : Quaternion ℝ) :
    multiply a b = hamiltonReference a b
      ∧ (multiply a b).w = a.w * b.w - dot a.v b.v
      ∧ (multiply a b).v = add (add (scale a.w b.v) (scale b.w a.v)) (cross a.v b.v)
      ∧ cross a.v b.v
        = { x := a.v.y * b.v.z - a.v.z * b.v.y,
            y := a.v.z * b.v.x - a.v.x * b.v.z,
            z := a.v.x * b.v.y - a.v.y * b.v.x } := by
  have h : multiply a b = hamiltonReference a b := by
    ext <;> simp only [multiply, hamiltonReference, dot, add, scale, cross] <;> ring
  refine ⟨h, ?_, ?_, rfl⟩
  · rw [h]
    rfl
  · rw [h]
    rfl

/-- C10: for every angle `θ` and every axis `a` with `dot(a, a) = 1`, the axis-angle
constructor `Quaternion(a, θ)` yields `w = cos(θ/2)`, `v = sin(θ/2) * a`, and the result
is a unit quaternion: `w^2 + dot(v, v) = 1`.  The test scenario holds exactly: axis
`(0,0,1)` and angle `π` give `w = 0`, `v = (0,0,1)`. -/
theorem ofAxisAngle_unit :
    (∀ (a : Vector3 ℝ) (θ : ℝ), dot a a = 1 →
        (Quaternion.ofAxisAngle Real.cos Real.sin a θ).w = Real.cos (θ / 2)
          ∧ (Quaternion.ofAxisAngle Real.cos Real.sin a θ).v = scale (Real.sin (θ / 2)) a
          ∧ (Quaternion.ofAxisAngle Real.cos Real.sin a θ).w ^ 2
              + dot (Quaternion.ofAxisAngle Real.cos Real.sin a θ).v
                  (Quaternion.ofAxisAngle Real.cos Real.sin a θ).v = 1)
      ∧ (Quaternion.ofAxisAngle Real.cos Real.sin ⟨0, 0, 1⟩ Real.pi).w = 0
      ∧ (Quaternion.ofAxisAngle Real.cos Real.sin ⟨0, 0, 1⟩ Real.pi).v = ⟨0, 0, 1⟩ := by
  refine ⟨?_, ?_, ?_⟩
  · intro a θ h
    refine ⟨rfl, rfl, ?_⟩
    have h1 := Real.cos_sq_add_sin_sq (θ / 2)
    simp only [dot] at h
    simp only [Quaternion.ofAxisAngle, dot]
    linear_combination h1 + Real.sin (θ / 2) ^ 2 * h
  · simp only [Quaternion.ofAxisAngle]
    exact Real.cos_pi_div_two
  · simp only [Quaternion.ofAxisAngle]
    rw [Real.sin_pi_div_two]
    ext <;> norm_num

/-- C10 at the unit axis `(0, 1, 0)` and the angle `π / 2`. -/
theorem ofAxisAngle_unit_witness :
    (dot (⟨0, 1, 0⟩ : Vector3 ℝ) ⟨0, 1, 0⟩ = 1)
      ∧ (Quaternion.ofAxisAngle Real.cos Real.sin ⟨0, 1, 0⟩ (Real.pi / 2)).w
          = Real.cos (Real.pi / 2 / 2)
      ∧ (Quaternion.ofAxisAngle Real.cos Real.sin ⟨0, 1, 0⟩ (Real.pi / 2)).v
          = scale (Real.sin (Real.pi / 2 / 2)) ⟨0, 1, 0⟩
      ∧ (Quaternion.ofAxisAngle Real.cos Real.sin ⟨0, 1, 0⟩ (Real.pi / 2)).w ^ 2
          + dot (Quaternion.ofAxisAngle Real.cos Real.sin ⟨0, 1, 0⟩ (Real.pi / 2)).v
              (Quaternion.ofAxisAngle Real.cos Real.sin ⟨0, 1, 0⟩ (Real.pi / 2)).v = 1 :=
  ⟨by norm_num [dot],
    ofAxisAngle_unit.1 ⟨0, 1, 0⟩ (Real.pi / 2) (by norm_num [dot])⟩

/-- C11 (as stated, refuted): the axis `(2,0,0)` is not a unit vector, yet the
axis-angle constructor with angle `0` returns a unit quaternion. -/
theorem ofAxisAngle_unit_only_if_counterexample :
    ((Quaternion.ofAxisAngle Real.cos Real.sin ⟨2, 0, 0⟩ 0).w ^ 2
        + dot (Quaternion.ofAxisAngle Real.cos Real.sin ⟨2, 0, 0⟩ 0).v
            (Quaternion.ofAxisAngle Real.cos Real.sin ⟨2, 0, 0⟩ 0).v = 1)
      ∧ dot (⟨2, 0, 0⟩ : Vector3 ℝ) ⟨2, 0, 0⟩ ≠ 1 := by
  constructor
  · simp [Quaternion.ofAxisAngle, dot]
  · norm_num [dot]

/-- C11 (amended): for every axis `a` and every angle `θ` with `sin(θ/2) ≠ 0`, if
`Quaternion(a, θ)` satisfies `w^2 + dot(v, v) = 1` then `dot(a, a) = 1`. -/
theorem ofAxisAngle_unit_only_if (a : Vector3 ℝ) (θ : ℝ)
    (hs : Real.sin (θ / 2) ≠ 0)
    (hu : (Quaternion.ofAxisAngle Real.cos Real.sin a θ).w ^ 2
        + dot (Quaternion.ofAxisAngle Real.cos Real.sin a θ).v
            (Quaternion.ofAxisAngle Real.cos Real.sin a θ).v = 1) :
    dot a a = 1 := by
  have hn : normSq (Quaternion.ofAxisAngle Real.cos Real.sin a θ) = 1 := hu
  rw [normSq_ofAxisAngle_aux] at hn
  have h1 := Real.cos_sq_add_sin_sq (θ / 2)
  have h0 : Real.sin (θ / 2) ^ 2 * (dot a a - 1) = 0 := by
    linear_combination hn - h1
  rcases mul_eq_zero.mp h0 with h | h
  · exact absurd (pow_eq_zero_iff two_ne_zero |>.mp h) hs
  · linarith

/-- C11 (amended) at the axis `(0,0,1)` and the angle `π`. -/
theorem ofAxisAngle_unit_only_if_witness :
    Real.sin (Real.pi / 2) ≠ 0
      ∧ ((Quaternion.ofAxisAngle Real.cos Real.sin ⟨0, 0, 1⟩ Real.pi).w ^ 2
        + dot (Quaternion.ofAxisAngle Real.cos Real.sin ⟨0, 0, 1⟩ Real.pi).v
            (Quaternion.ofAxisAngle Real.cos Real.sin ⟨0, 0, 1⟩ Real.pi).v = 1)
      ∧ dot (⟨0, 0, 1⟩ : Vector3 ℝ) ⟨0, 0, 1⟩ = 1 :=
  ⟨by simp, by simp [Quaternion.ofAxisAngle, dot],
    ofAxisAngle_unit_only_if ⟨0, 0, 1⟩ Real.pi (by simp)
      (by simp [Quaternion.ofAxisAngle, dot])⟩

/-- C12: rotating by the quaternion built from axis `(0,0,1)` and angle `θ` is the
counter-clockwise rotation about `z` by the full angle `θ`:
`rotate(Quaternion((0,0,1), θ), (x, y, z))
  = (x*cos θ - y*sin θ, x*sin θ + y*cos θ, z)`; in particular `θ = π/2` maps `(1,2,3)`
to exactly `(-2,1,3)`. -/
theorem rotate_axisZ :
    (∀ θ x y z : ℝ,
        rotate (Quaternion.ofAxisAngle Real.cos Real.sin ⟨0, 0, 1⟩ θ) ⟨x, y, z⟩
          = ⟨x * Real.cos θ - y * Real.sin θ, x * Real.sin θ + y * Real.cos θ, z⟩)
      ∧ rotate (Quaternion.ofAxisAngle Real.cos Real.sin ⟨0, 0, 1⟩ (Real.pi / 2)) ⟨1, 2, 3⟩
          = ⟨-2, 1, 3⟩ := by
  refine ⟨rotate_axisZ_aux, ?_⟩
  rw [rotate_axisZ_aux, Real.cos_pi_div_two, Real.sin_pi_div_two]
  ext <;> norm_num

/-- C13: for every Transform `t` (no unit-norm assumption), `invert(t)` has rotation
`conjugate(t.rotation)` and position `rotate(conjugate(t.rotation), negate(t.position))`.
For `t = {pos (1,2,3), rot axis (0,0,1) angle π/2}`, `invert(t)` has position exactly
`(-2,1,-3)` and rotation `w = √2/2`, `v = (0, 0, -√2/2)`, with `v.x` and `v.y`
exactly `0`. -/
theorem invert_fields :
    (∀ t : Transform ℝ,
        (invert t).rotation = conjugate t.rotation
          ∧ (invert t).position = rotate (conjugate t.rotation) (negate t.position))
      ∧ (invert ⟨⟨1, 2, 3⟩,
            Quaternion.ofAxisAngle Real.cos Real.sin ⟨0, 0, 1⟩ (Real.pi / 2)⟩).position
          = ⟨-2, 1, -3⟩
      ∧ (invert ⟨⟨1, 2, 3⟩,
            Quaternion.ofAxisAngle Real.cos Real.sin ⟨0, 0, 1⟩ (Real.pi / 2)⟩).rotation
          = ⟨Real.sqrt 2 / 2, ⟨0, 0, -(Real.sqrt 2 / 2)⟩⟩
      ∧ (invert ⟨⟨1, 2, 3⟩,
            Quaternion.ofAxisAngle Real.cos Real.sin ⟨0, 0, 1⟩ (Real.pi / 2)⟩).rotation.v.x
          = 0
      ∧ (invert ⟨⟨1, 2, 3⟩,
            Quaternion.ofAxisAngle Real.cos Real.sin ⟨0, 0, 1⟩ (Real.pi / 2)⟩).rotation.v.y
          = 0 := by
  have h4 : Real.pi / 2 / 2 = Real.pi / 4 := by ring
  refine ⟨fun t => ⟨rfl, rfl⟩, ?_, ?_, ?_, ?_⟩
  · simp only [invert, negate]
    rw [rotate_conjugate_axisZ_aux, Real.cos_pi_div_two, Real.sin_pi_div_two]
    ext <;> norm_num
  · simp only [invert, conjugate, negate, Quaternion.ofAxisAngle]
    rw [h4, Real.cos_pi_div_four, Real.sin_pi_div_four]
    ext <;> simp
  · simp only [invert, conjugate, negate, Quaternion.ofAxisAngle]
    simp
  · simp only [invert, conjugate, negate, Quaternion.ofAxisAngle]
    simp

/-- C14: the Hamilton product is not commutative: the unit quaternions built by the
axis-angle constructor from the unit axes `(1,0,0)` and `(0,1,0)`, both with angle `π`,
are `q1 = (0,(1,0,0))` and `q2 = (0,(0,1,0))`, and `multiply(q1, q2) ≠ multiply(q2, q1)`. -/
theorem multiply_not_comm :
    Quaternion.ofAxisAngle Real.cos Real.sin ⟨1, 0, 0⟩ Real.pi = ⟨0, ⟨1, 0, 0⟩⟩
      ∧ Quaternion.ofAxisAngle Real.cos Real.sin ⟨0, 1, 0⟩ Real.pi = ⟨0, ⟨0, 1, 0⟩⟩
      ∧ dot (⟨1, 0, 0⟩ : Vector3 ℝ) ⟨1, 0, 0⟩ = 1
      ∧ dot (⟨0, 1, 0⟩ : Vector3 ℝ) ⟨0, 1, 0⟩ = 1
      ∧ (⟨1, 0, 0⟩ : Vector3 ℝ) ≠ ⟨0, 1, 0⟩
      ∧ normSq (Quaternion.ofAxisAngle Real.cos Real.sin ⟨1, 0, 0⟩ Real.pi) = 1
      ∧ normSq (Quaternion.ofAxisAngle Real.cos Real.sin ⟨0, 1, 0⟩ Real.pi) = 1
      ∧ multiply (Quaternion.ofAxisAngle Real.cos Real.sin ⟨1, 0, 0⟩ Real.pi)
            (Quaternion.ofAxisAngle Real.cos Real.sin ⟨0, 1, 0⟩ Real.pi)
          ≠ multiply (Quaternion.ofAxisAngle Real.cos Real.sin ⟨0, 1, 0⟩ Real.pi)
            (Quaternion.ofAxisAngle Real.cos Real.sin ⟨1, 0, 0⟩ Real.pi)
      ∧ ∃ q1 q2 : Quaternion ℝ, normSq q1 = 1 ∧ normSq q2 = 1
          ∧ multiply q1 q2 ≠ multiply q2 q1 := by
  have e1 : Quaternion.ofAxisAngle Real.cos Real.sin ⟨1, 0, 0⟩ Real.pi
      = ⟨0, ⟨1, 0, 0⟩⟩ := by
    simp [Quaternion.ofAxisAngle]
  have e2 : Quaternion.ofAxisAngle Real.cos Real.sin ⟨0, 1, 0⟩ Real.pi
      = ⟨0, ⟨0, 1, 0⟩⟩ := by
    simp [Quaternion.ofAxisAngle]
  have hne : multiply (⟨0, ⟨1, 0, 0⟩⟩ : Quaternion ℝ) ⟨0, ⟨0, 1, 0⟩⟩
      ≠ multiply ⟨0, ⟨0, 1, 0⟩⟩ ⟨0, ⟨1, 0, 0⟩⟩ := by
    intro h
    have hz := congrArg (fun q : Quaternion ℝ => q.v.z) h
    simp only [multiply] at hz
    norm_num at hz
  have n1 : normSq (⟨0, ⟨1, 0, 0⟩⟩ : Quaternion ℝ) = 1 := by norm_num [normSq, dot]
  have n2 : normSq (⟨0, ⟨0, 1, 0⟩⟩ : Quaternion ℝ) = 1 := by norm_num [normSq, dot]
  rw [e1, e2]
  refine ⟨rfl, rfl, by norm_num [dot], by norm_num [dot], ?_, n1, n2, hne,
    ⟨_, _, n1, n2, hne⟩⟩
  intro h
  have hx := congrArg Vector3.x h
  norm_num at hx

/-- C15: for every axis vector `a` (unit or not), the axis-angle constructor with angle
`0` produces the identity rotation: `Quaternion(a, 0)` has `w = 1` and `v = (0,0,0)`. -/
theorem ofAxisAngle_zero (a : Vector3 ℝ) :
    (Quaternion.ofAxisAngle Real.cos Real.sin a 0).w = 1
      ∧ (Quaternion.ofAxisAngle Real.cos Real.sin a 0).v = ⟨0, 0, 0⟩
      ∧ Quaternion.ofAxisAngle Real.cos Real.sin a 0 = ⟨1, ⟨0, 0, 0⟩⟩ := by
  refine ⟨?_, ?_, ?_⟩ <;> simp [Quaternion.ofAxisAngle]

/-- C16: the Vector3 dot product is symmetric and bilinear: for all vectors `a`, `b`,
`c` and every scalar `k`, `dot(a, b) = dot(b, a)`,
`dot(add(a, b), c) = dot(a, c) + dot(b, c)` and
`dot((k*a.x, k*a.y, k*a.z), b) = k * dot(a, b)`, and likewise in the second argument;
the test value is `dot((1,2,3), (2,-2,1)) = 1`. -/
theorem dot_symm_bilinear :
    (∀ (a b c : Vector3 ℝ) (k : ℝ),
        dot a b = dot b a
          ∧ dot (add a b) c = dot a c + dot b c
          ∧ dot ⟨k * a.x, k * a.y, k * a.z⟩ b = k * dot a b
          ∧ dot c (add a b) = dot c a + dot c b
          ∧ dot b ⟨k * a.x, k * a.y, k * a.z⟩ = k * dot b a)
      ∧ dot (⟨1, 2, 3⟩ : Vector3 ℝ) ⟨2, -2, 1⟩ = 1 := by
  constructor
  · intro a b c k
    refine ⟨?_, ?_, ?_, ?_, ?_⟩ <;> simp only [dot, add] <;> ring
  · norm_num [dot]

/-- C17: quaternion conjugation is an involution that leaves the scalar part unchanged:
for every Quaternion `q`, `conjugate(q) = (q.w, negate(q.v))` and
`conjugate(conjugate(q)) = q`, and `negate(negate(a)) = a` for every Vector3 `a`; the
conjugate of `(1,(2,3,4))` is `(1,(-2,-3,-4))`. -/
theorem conjugate_involution :
    (∀ q : Quaternion ℝ,
        conjugate q = ⟨q.w, negate q.v⟩
          ∧ (conjugate q).w = q.w
          ∧ conjugate (conjugate q) = q)
      ∧ (∀ a : Vector3 ℝ, negate (negate a) = a)
      ∧ conjugate (⟨1, ⟨2, 3, 4⟩⟩ : Quaternion ℝ) = ⟨1, ⟨-2, -3, -4⟩⟩ := by
  have hneg : ∀ a : Vector3 ℝ, negate (negate a) = a := by
    intro a
    ext <;> simp only [negate, neg_neg]
  refine ⟨fun q => ⟨rfl, rfl, ?_⟩, hneg, rfl⟩
  simp only [conjugate]
  rw [hneg]

/-- C18: a non-unit quaternion does not act as a pure rotation: for every Quaternion
`q` and Vector3 `v`,
`dot(rotate(q, v), rotate(q, v)) = (q.w^2 + dot(q.v, q.v))^2 * dot(v, v)`; hence whenever
`q.w^2 + dot(q.v, q.v) ≠ 1` and `v ≠ (0,0,0)`, the squared length and the length
(its square root) of `rotate(q, v)` differ from those of `v`. -/
theorem rotate_scales_length (q : Quaternion ℝ) (v : Vector3 ℝ) :
    dot (rotate q v) (rotate q v) = (q.w ^ 2 + dot q.v q.v) ^ 2 * dot v v
      ∧ (q.w ^ 2 + dot q.v q.v ≠ 1 → v ≠ ⟨0, 0, 0⟩ →
          dot (rotate q v) (rotate q v) ≠ dot v v
            ∧ Real.sqrt (dot (rotate q v) (rotate q v)) ≠ Real.sqrt (dot v v)) := by
  have hid : dot (rotate q v) (rotate q v) = normSq q ^ 2 * dot v v := dot_rotate_aux q v
  refine ⟨hid, ?_⟩
  intro hq hv
  have hN : normSq q ≠ 1 := hq
  have hN0 : 0 ≤ normSq q := normSq_nonneg_aux q
  have hd0 : 0 ≤ dot v v := dot_self_nonneg_aux v
  have hd : dot v v ≠ 0 := fun h => hv (eq_zero_of_dot_self_aux v h)
  have hne : dot (rotate q v) (rotate q v) ≠ dot v v := by
    intro h
    rw [hid] at h
    have h1 : (normSq q - 1) * ((normSq q + 1) * dot v v) = 0 := by
      linear_combination h
    rcases mul_eq_zero.mp h1 with h2 | h2
    · exact hN (by linarith)
    · rcases mul_eq_zero.mp h2 with h3 | h3
      · linarith
      · exact hd h3
  refine ⟨hne, ?_⟩
  intro h
  exact hne ((Real.sqrt_inj (dot_self_nonneg_aux (rotate q v)) hd0).mp h)

/-- C18 at the non-unit quaternion `(2, (0,0,0))` and the vector `(1, 0, 0)`. -/
theorem rotate_scales_length_witness :
    ((2 : ℝ) ^ 2 + dot (⟨0, 0, 0⟩ : Vector3 ℝ) ⟨0, 0, 0⟩ ≠ 1)
      ∧ (⟨1, 0, 0⟩ : Vector3 ℝ) ≠ ⟨0, 0, 0⟩
      ∧ dot (rotate (⟨2, ⟨0, 0, 0⟩⟩ : Quaternion ℝ) ⟨1, 0, 0⟩)
          (rotate ⟨2, ⟨0, 0, 0⟩⟩ ⟨1, 0, 0⟩) ≠ dot (⟨1, 0, 0⟩ : Vector3 ℝ) ⟨1, 0, 0⟩
      ∧ Real.sqrt (dot (rotate (⟨2, ⟨0, 0, 0⟩⟩ : Quaternion ℝ) ⟨1, 0, 0⟩)
          (rotate ⟨2, ⟨0, 0, 0⟩⟩ ⟨1, 0, 0⟩))
        ≠ Real.sqrt (dot (⟨1, 0, 0⟩ : Vector3 ℝ) ⟨1, 0, 0⟩) :=
  ⟨by norm_num [dot], by simp,
    (rotate_scales_length ⟨2, ⟨0, 0, 0⟩⟩ ⟨1, 0, 0⟩).2 (by norm_num [dot]) (by simp)⟩

/-- C19: with `N(q) = q.w^2 + dot(q.v, q.v)`, the squared norm is multiplicative under
the Hamilton product and invariant under conjugation:
`N(multiply(a, b)) = N(a) * N(b)` and `N(conjugate(a)) = N(a)`.  Consequently, if
`a.rotation` and `b.rotation` are unit-norm then so are `compose(a, b).rotation` and
`invert(a).rotation`. -/
theorem normSq_invariant :
    (∀ q : Quaternion ℝ, normSq q = q.w ^ 2 + dot q.v q.v)
      ∧ (∀ a b : Quaternion ℝ,
          normSq (multiply a b) = normSq a * normSq b ∧ normSq (conjugate a) = normSq a)
      ∧ (∀ a b : Transform ℝ,
          a.rotation.w ^ 2 + dot a.rotation.v a.rotation.v = 1 →
          b.rotation.w ^ 2 + dot b.rotation.v b.rotation.v = 1 →
          (compose a b).rotation.w ^ 2
              + dot (compose a b).rotation.v (compose a b).rotation.v = 1
            ∧ (invert a).rotation.w ^ 2
              + dot (invert a).rotation.v (invert a).rotation.v = 1) := by
  refine ⟨fun q => rfl, fun a b => ⟨normSq_multiply_aux a b, normSq_conjugate_aux a⟩, ?_⟩
  intro a b ha hb
  have hna : normSq a.rotation = 1 := ha
  have hnb : normSq b.rotation = 1 := hb
  constructor
  · show normSq (compose a b).rotation = 1
    simp only [compose]
    rw [normSq_multiply_aux, hna, hnb, one_mul]
  · show normSq (invert a).rotation = 1
    simp only [invert]
    rw [normSq_conjugate_aux, hna]

/-- C19 at the transforms with unit rotations `(3/5, (0, 4/5, 0))` and
`(0, (0, 0, 1))`. -/
theorem normSq_invariant_witness :
    ((3 / 5 : ℝ) ^ 2 + dot (⟨0, 4 / 5, 0⟩ : Vector3 ℝ) ⟨0, 4 / 5, 0⟩ = 1)
      ∧ ((0 : ℝ) ^ 2 + dot (⟨0, 0, 1⟩ : Vector3 ℝ) ⟨0, 0, 1⟩ = 1)
      ∧ ((compose (⟨⟨1, 2, 3⟩, ⟨3 / 5, ⟨0, 4 / 5, 0⟩⟩⟩ : Transform ℝ)
              ⟨⟨4, 5, 6⟩, ⟨0, ⟨0, 0, 1⟩⟩⟩).rotation.w ^ 2
          + dot (compose (⟨⟨1, 2, 3⟩, ⟨3 / 5, ⟨0, 4 / 5, 0⟩⟩⟩ : Transform ℝ)
              ⟨⟨4, 5, 6⟩, ⟨0, ⟨0, 0, 1⟩⟩⟩).rotation.v
            (compose (⟨⟨1, 2, 3⟩, ⟨3 / 5, ⟨0, 4 / 5, 0⟩⟩⟩ : Transform ℝ)
              ⟨⟨4, 5, 6⟩, ⟨0, ⟨0, 0, 1⟩⟩⟩).rotation.v = 1
        ∧ (invert (⟨⟨1, 2, 3⟩, ⟨3 / 5, ⟨0, 4 / 5, 0⟩⟩⟩ : Transform ℝ)).rotation.w ^ 2
          + dot (invert (⟨⟨1, 2, 3⟩, ⟨3 / 5, ⟨0, 4 / 5, 0⟩⟩⟩ : Transform ℝ)).rotation.v
            (invert (⟨⟨1, 2, 3⟩, ⟨3 / 5, ⟨0, 4 / 5, 0⟩⟩⟩ : Transform ℝ)).rotation.v = 1) :=
  ⟨by norm_num [dot], by norm_num [dot],
    normSq_invariant.2.2 ⟨⟨1, 2, 3⟩, ⟨3 / 5, ⟨0, 4 / 5, 0⟩⟩⟩ ⟨⟨4, 5, 6⟩, ⟨0, ⟨0, 0, 1⟩⟩⟩
      (by norm_num [dot]) (by norm_num [dot])⟩

/-- C20: the default-constructed values are identities: with
`I = Quaternion() = (1,(0,0,0))` and `E = Transform() = {position (0,0,0), rotation I}`,
for every Quaternion `q`, Vector3 `v` and Transform `t`:
`multiply(I, q) = multiply(q, I) = q`, `rotate(I, v) = v`,
`compose(E, t) = compose(t, E) = t` and `apply(E, v) = v`. -/
theorem default_identities :
    (Quaternion.default : Quaternion ℝ) = ⟨1, ⟨0, 0, 0⟩⟩
      ∧ (Transform.default : Transform ℝ) = ⟨⟨0, 0, 0⟩, Quaternion.default⟩
      ∧ ∀ (q : Quaternion ℝ) (v : Vector3 ℝ) (t : Transform ℝ),
          multiply Quaternion.default q = q
            ∧ multiply q Quaternion.default = q
            ∧ rotate Quaternion.default v = v
            ∧ compose Transform.default t = t
            ∧ compose t Transform.default = t
            ∧ apply Transform.default v = v := by
  refine ⟨rfl, rfl, ?_⟩
  intro q v t
  have hl : ∀ p : Quaternion ℝ, multiply Quaternion.default p = p := by
    intro p
    ext <;> simp [multiply, Quaternion.default, Vector3.default]
  have hr : ∀ p : Quaternion ℝ, multiply p Quaternion.default = p := by
    intro p
    ext <;> simp [multiply, Quaternion.default, Vector3.default]
  have hrot : ∀ u : Vector3 ℝ, rotate Quaternion.default u = u := by
    intro u
    ext <;> simp [rotate, multiply, conjugate, negate, Quaternion.default, Vector3.default]
  have hzero : ∀ p : Quaternion ℝ, rotate p Vector3.default = Vector3.default := by
    intro p
    ext <;> simp [rotate, multiply, conjugate, negate, Vector3.default]
  have hadd0 : ∀ u : Vector3 ℝ, add Vector3.default u = u := by
    intro u
    ext <;> simp [add, Vector3.default]
  have hadd0r : ∀ u : Vector3 ℝ, add u Vector3.default = u := by
    intro u
    ext <;> simp [add, Vector3.default]
  refine ⟨hl q, hr q, hrot v, ?_, ?_, ?_⟩
  · simp only [compose, Transform.default]
    rw [hrot, hadd0, hl]
  · simp only [compose, Transform.default]
    rw [hzero, hadd0r, hr]
  · simp only [apply, Transform.default]
    rw [hrot, hadd0]

end tf
